import Mathlib

/-!
Verification development for the `cfg` command-line option parser
(`include/cfg.hpp`).  The C++ data model and algorithms are shallowly
embedded: strings are lists of characters, the polymorphic option
hierarchy (`option_base`, `option<T>`, `option<void>`) becomes a single
record tagged with its value type, and the imperative `parse` loop
becomes a structurally recursive function over the argument vector that
threads an explicit parser state (registry, operands, error code).
-/

namespace Cfg

/-- Character strings, as in the C++ code (NUL-free `char` sequences). -/
abbrev Str := List Char

/-- The value types instantiated for `config::option<T>` that the claims
exercise: arithmetic (`int`) and string-like (`std::string`). -/
inductive ValTy where
  | int
  | str
  deriving DecidableEq, Repr

/-- A type-erased option value, the payload carried by `std::any` /
`std::optional<value_type>`. -/
inductive Value where
  | int (n : Int)
  | str (s : Str)
  deriving DecidableEq, Repr

/-- The declared type of a `Value`, used to model `std::any_cast<T>`. -/
def Value.ty : Value → ValTy
  | .int _ => .int
  | .str _ => .str

/-- The `config_error` enumeration of `cfg.hpp`. -/
inductive config_error where
  | unknown_option
  | option_does_not_accept_argument
  | missing_argument_for_option
  | option_not_specified
  deriving DecidableEq, Repr

/-- An `std::error_code` as used by `parse`: either one of the four
`config_error` values or a conversion error propagated from
`charconv::from_chars` (an `std::errc`). -/
inductive ErrCode where
  | config (e : config_error)
  | conv
  deriving DecidableEq, Repr

/-- Errors thrown by the typed getter `config::get<T>`: a
`std::system_error` carrying a `config_error`, or `std::bad_any_cast`
from the `std::any_cast<T>` on a type mismatch. -/
inductive GetErr where
  | unknown_option
  | option_not_specified
  | bad_any_cast
  deriving DecidableEq, Repr

/-! ## Type conversion layer

`option_traits<T>` for arithmetic `T` calls `charconv<T>::from_chars` /
`to_chars`, declared in `cfg/utilities.hpp`, which is not part of the
sources here.  The decimal conversion primitives are therefore modelled
from the spec (section 4.1). -/

/-- Decimal digit test. -/
def isDig (c : Char) : Bool :=
  c == '0' || c == '1' || c == '2' || c == '3' || c == '4' ||
  c == '5' || c == '6' || c == '7' || c == '8' || c == '9'

/-- Numeric value of a decimal digit character. -/
def dval (c : Char) : Nat := c.toNat - 48

/-- The decimal digit character for a value below ten. -/
def digitChar (d : Nat) : Char :=
  if d = 0 then '0' else if d = 1 then '1' else if d = 2 then '2'
  else if d = 3 then '3' else if d = 4 then '4' else if d = 5 then '5'
  else if d = 6 then '6' else if d = 7 then '7' else if d = 8 then '8'
  else '9'

/-- Accumulating scan of a decimal digit string (most significant digit
first); fails on any non-digit character. -/
def parseDigitsAux (acc : Nat) : Str → Option Nat
  | [] => some acc
  | c :: cs => if isDig c then parseDigitsAux (10 * acc + dval c) cs else none

/-- Parse a non-empty, all-digit string to a natural number. -/
def parseDigits (s : Str) : Option Nat :=
  if s = [] then none else parseDigitsAux 0 s

/-- Modelled from the spec: `charconv<T>::from_chars` for a signed
arithmetic type — locale-independent, exact decimal text conversion of
the whole token; a malformed token fails. -/
def fromChars : Str → Option Int
  | [] => none
  | c :: rest =>
    if c = '-' then (parseDigits rest).map (fun n => -(n : Int))
    else (parseDigits (c :: rest)).map (fun n => (n : Int))

/-- Digits of a natural number, most significant first, driven by
explicit fuel so that the definition is structurally recursive. -/
def toDigitsAux : Nat → Nat → Str
  | 0, _ => []
  | fuel + 1, n =>
    if n < 10 then [digitChar n]
    else toDigitsAux fuel (n / 10) ++ [digitChar (n % 10)]

/-- Decimal digit string of a natural number (canonical: no leading
zeros except for `"0"` itself). -/
def toDigitsN (n : Nat) : Str := toDigitsAux (n + 1) n

/-- Modelled from the spec: `charconv<T>::to_chars` — the canonical
decimal text representation of an integer. -/
def intToChars : Int → Str
  | .ofNat n => toDigitsN n
  | .negSucc m => '-' :: toDigitsN (m + 1)

/-- A digit string with no redundant leading zeros: non-empty, all
digits, and the leading digit is not `0` unless it is the whole
string. -/
def isCanonicalNat : Str → Bool
  | [] => false
  | c :: cs => isDig c && cs.all isDig && (decide (cs = []) || c != '0')

/-- A signed decimal token in canonical form: no redundant leading
zeros and no `-0`. -/
def isCanonicalInt : Str → Bool
  | [] => false
  | c :: rest =>
    if c = '-' then isCanonicalNat rest && rest != ['0']
    else isCanonicalNat (c :: rest)

/-- The `option_traits<T>::set_value` for arithmetic `T` (`cfg.hpp`
lines 533-540): declares an uninitialized `value`, runs `from_chars`,
sets `ec` on failure, and returns `value` regardless.  The returned
`Bool` is the error flag; on failure the C++ value is indeterminate,
modelled here by `0` (theorems about the failure path only use the fact
that some value is produced and stored). -/
def option_traits_int_set_value (s : Str) : Int × Bool :=
  match fromChars s with
  | some v => (v, false)
  | none => (0, true)

/-- The `option_traits<T>::to_string` for arithmetic `T`. -/
def option_traits_int_to_string (n : Int) : Str := intToChars n

/-! ## Option entity -/

/-- One declared option: the fields of `config::option_base` plus the
value slot of `config::option<T>`.  `m_ty = none` models a plain
`option_base` / `option<void>` (a flag entity with no value slot type);
`m_ty = some ty` models `config::option<T>`. -/
structure OptionB where
  m_name : Str
  m_desc : Str
  m_short_name : Option Char
  m_is_flag : Bool
  m_has_default : Bool
  m_hidden : Bool
  m_seen : Nat
  m_ty : Option ValTy
  m_value : Option Value
  deriving DecidableEq, Repr

/-- The `option_base` constructor (`cfg.hpp` lines 120-133): a
single-character name becomes its own short alias; a name ending in
`,<char>` has the suffix split off as the short alias. -/
def option_base_ctor (name desc : Str) (hidden : Bool) : OptionB :=
  let p : Str × Option Char :=
    if name.length = 1 then (name, name.head?)
    else if 2 < name.length ∧ name[name.length - 2]? = some ',' then
      (name.take (name.length - 2), name.getLast?)
    else (name, none)
  { m_name := p.1, m_desc := desc, m_short_name := p.2, m_is_flag := true,
    m_has_default := false, m_hidden := hidden, m_seen := 0,
    m_ty := none, m_value := none }

/-- `make_option<void>`: a flag option. -/
def make_option_flag (name desc : Str) : OptionB :=
  option_base_ctor name desc false

/-- `make_option<T>` without a default: a valued option whose slot is
absent until set. -/
def make_option (ty : ValTy) (name desc : Str) : OptionB :=
  { option_base_ctor name desc false with m_is_flag := false, m_ty := some ty }

/-- `make_option<T>` with a default value: the slot starts holding the
default. -/
def make_option_default (ty : ValTy) (name desc : Str) (v : Value) : OptionB :=
  { make_option ty name desc with m_has_default := true, m_value := some v }

/-- `config::option<T>::set_value` (`cfg.hpp` lines 244-247): assigns
`m_value = traits_type::set_value(argument, ec)` unconditionally.  The
returned `Bool` reports whether the conversion set the error code.  For
`m_ty = none` this is `option_base::set_value`, which only asserts and
is never reached by the parser. -/
def OptionB.set_value (o : OptionB) (a : Str) : OptionB × Bool :=
  match o.m_ty with
  | none => (o, false)
  | some .int =>
    match fromChars a with
    | some v => ({ o with m_value := some (.int v) }, false)
    | none => ({ o with m_value := some (.int 0) }, true)
  | some .str => ({ o with m_value := some (.str a) }, false)

/-- `get_value` (`cfg.hpp` lines 142-145 and 249-255): the base entity
returns an empty `std::any`; `option<T>` returns the slot's contents if
engaged. -/
def OptionB.get_value (o : OptionB) : Option Value :=
  match o.m_ty with
  | none => none
  | some _ => o.m_value

/-- Rendering of a stored value: `to_string` of the traits (identity
for strings). -/
def formatValue : Value → Str
  | .int n => intToChars n
  | .str s => s

/-- `get_default_value` (`cfg.hpp` lines 147-150 and 257-263): the base
entity returns the empty string; `option<T>` dereferences `*m_value`
unconditionally — when the slot is empty that dereference is undefined
behaviour, modelled as `none`. -/
def OptionB.get_default_value (o : OptionB) : Option Str :=
  match o.m_ty with
  | none => some []
  | some _ => o.m_value.map formatValue

/-! ## Registry and parser state -/

/-- The mutable state threaded through `config::parse`:
`config_impl::m_options` (the registry, insertion order preserved),
`config_impl::m_operands`, and the `std::error_code &ec`. -/
structure ParseState where
  options : List OptionB
  operands : List Str
  ec : Option ErrCode
  deriving DecidableEq, Repr

/-- How an option was looked up — `get_option(std::string_view)` by
long name or `get_option(char)` by short alias.  Stands in for the
`option_base *opt` pointer carried across argument resolution. -/
inductive OptKey where
  | long (nm : Str)
  | short (c : Char)
  deriving DecidableEq, Repr

/-- The match predicate of the two `get_option` overloads (`cfg.hpp`
lines 485-503). -/
def keyP : OptKey → OptionB → Bool
  | .long nm, o => o.m_name == nm
  | .short c, o => o.m_short_name == some c

/-- `config_impl::get_option(std::string_view)`: first option with the
given long name. -/
def findLong (nm : Str) (st : ParseState) : Option OptionB :=
  st.options.find? (keyP (.long nm))

/-- Mutation through the pointer returned by `get_option`: update the
first matching option, leave the rest untouched. -/
def updFirst (p : OptionB → Bool) (f : OptionB → OptionB) : List OptionB → List OptionB
  | [] => []
  | o :: os => if p o then f o :: os else o :: updFirst p f os

/-- `++opt->m_seen`. -/
def incSeen (k : OptKey) (st : ParseState) : ParseState :=
  { st with options := updFirst (keyP k) (fun o => { o with m_seen := o.m_seen + 1 }) st.options }

/-- `ec = make_error_code(...)`. -/
def setEc (e : ErrCode) (st : ParseState) : ParseState :=
  { st with ec := some e }

/-- `m_impl->m_operands.emplace_back(arg)`. -/
def pushOperand (a : Str) (st : ParseState) : ParseState :=
  { st with operands := st.operands ++ [a] }

/-- `opt->set_value(opt_arg, ec)` through the pointer: rewrites the
matched option with the result and records a conversion error if the
traits reported one. -/
def applySet (k : OptKey) (a : Str) (st : ParseState) : ParseState :=
  match st.options.find? (keyP k) with
  | none => st
  | some o =>
    { st with
      options := updFirst (keyP k) (fun _ => (o.set_value a).1) st.options,
      ec := if (o.set_value a).2 then some .conv else st.ec }

/-- Split a long-option body at the first `=` (`cfg.hpp` lines
335-342): the name before it and the inline argument after it; with no
`=` the whole body is the name and the inline argument stays empty. -/
def splitEq : Str → Str × Str
  | [] => ([], [])
  | c :: rest =>
    if c = '=' then ([], rest)
    else ((splitEq rest).1.cons c, (splitEq rest).2)

/-- The short-option cluster scan (`cfg.hpp` lines 363-389): the
`while (*arg != 0 and not ec)` loop.  Returns the state after the scan
and, when a valued option was hit (`expect_option_argument`), its
lookup key together with the remainder of the token as the pending
inline argument. -/
def clusterScan (ig : Bool) : List Char → ParseState → ParseState × Option (OptKey × Str)
  | [], st => (st, none)
  | c :: cs, st =>
    if st.ec.isSome then (st, none)
    else
      match st.options.find? (keyP (.short c)) with
      | none =>
        clusterScan ig cs (if ig then st else setEc (.config .unknown_option) st)
      | some o =>
        if o.m_is_flag then clusterScan ig cs (incSeen (.short c) st)
        else (incSeen (.short c) st, some (.short c, cs))

/-- The long-option branch (`cfg.hpp` lines 329-362): split the body at
the first `=`, look the name up, and handle the unknown / flag / valued
cases.  For a valued option the key and the inline argument (empty when
no `=` was present) are returned for argument resolution. -/
def handleLong (ig : Bool) (body : Str) (st : ParseState) : ParseState × Option (OptKey × Str) :=
  match st.options.find? (keyP (.long (splitEq body).1)) with
  | none => ((if ig then st else setEc (.config .unknown_option) st), none)
  | some o =>
    if o.m_is_flag then
      (incSeen (.long (splitEq body).1)
        (if (splitEq body).2 ≠ [] then setEc (.config .option_does_not_accept_argument) st
         else st), none)
    else
      (incSeen (.long (splitEq body).1) st, some (.long (splitEq body).1, (splitEq body).2))

/-- Processing of one option token (a token starting with `-`, other
than the bare `--`): the long-option branch (`cfg.hpp` lines 329-362)
or the short-option cluster (lines 363-389).  Returns the updated state
and, for a valued option, the key and inline argument still awaiting
argument resolution (lines 391-400). -/
def handleOption (ig : Bool) (arg : Str) (st : ParseState) : ParseState × Option (OptKey × Str) :=
  match arg with
  | '-' :: '-' :: body => handleLong ig body st
  | '-' :: cluster => clusterScan ig cluster st
  | _ => (st, none)

/-- The two-state machine of `config::parse`. -/
inductive PMode where
  | options
  | operands
  deriving DecidableEq, Repr

/-- The body of one iteration of the outer loop of `config::parse`
(`cfg.hpp` lines 297-400): classify the token, process it, and perform
argument resolution (lines 391-400), possibly consuming the next vector
slot.  Returns the next state-machine mode, the updated parser state
and the tokens still to be processed. -/
def parseStep (ig : Bool) (mode : PMode) (arg : Str) (rest : List Str) (st : ParseState) :
    PMode × ParseState × List Str :=
  match mode with
  | .operands => (.operands, pushOperand arg st, rest)
  | .options =>
    if arg.head? ≠ some '-' then (.options, pushOperand arg st, rest)
    else if arg = ['-', '-'] then (.operands, st, rest)
    else
      match handleOption ig arg st with
      | (st', none) => (.options, st', rest)
      | (st', some (k, a)) =>
        if a = [] then
          match rest with
          | [] => (.options, setEc (.config .missing_argument_for_option) st', [])
          | next :: rest' =>
            if next = [] then
              (.options, setEc (.config .missing_argument_for_option) st', rest')
            else
              (.options, applySet k next st', rest')
        else
          (.options, applySet k a st', rest)

/-- The outer loop of `config::parse` (`cfg.hpp` lines 285-402) over
the remaining argument vector.  The `i < argc and not ec` condition
becomes the `st.ec.isSome` early return.  The loop is driven by fuel to
keep the recursion structural; every iteration consumes at least one
token, so any fuel of at least the vector length computes the loop's
result. -/
def parseLoop (ig : Bool) : Nat → List Str → PMode → ParseState → ParseState
  | 0, _, _, st => st
  | _ + 1, [], _, st => st
  | fuel + 1, arg :: rest, mode, st =>
    if st.ec.isSome then st
    else
      parseLoop ig fuel (parseStep ig mode arg rest st).2.2
        (parseStep ig mode arg rest st).1 (parseStep ig mode arg rest st).2.1

/-- `config::parse(argc, argv, ignore_unknown, ec)`: slot 0 (the
program name) is skipped, the registry holds clones of the declared
options, the error code starts clear. -/
def cfgParse (argv : List Str) (opts : List OptionB) (ig : Bool) : ParseState :=
  parseLoop ig argv.length (argv.drop 1) .options
    { options := opts, operands := [], ec := none }

/-! ## Configuration facade -/

/-- `config::has`. -/
def config_has (nm : Str) (st : ParseState) : Bool :=
  match findLong nm st with
  | none => false
  | some o => decide (0 < o.m_seen) || o.m_has_default

/-- `config::count`. -/
def config_count (nm : Str) (st : ParseState) : Nat :=
  match findLong nm st with
  | none => 0
  | some o => o.m_seen

instance {ε α : Type} [DecidableEq ε] [DecidableEq α] : DecidableEq (Except ε α) := by
  intro x y
  cases x <;> cases y
  case error.error a b => exact decidable_of_iff (a = b) (by simp)
  case error.ok a b => exact isFalse (by simp)
  case ok.error a b => exact isFalse (by simp)
  case ok.ok a b => exact decidable_of_iff (a = b) (by simp)

/-- `config::get<T>` (`cfg.hpp` lines 424-437): unknown name throws
`unknown_option`; an empty `std::any` from `get_value` throws
`option_not_specified`; `std::any_cast<T>` throws `bad_any_cast` on a
type mismatch, else the value is returned. -/
def config_get (ty : ValTy) (nm : Str) (st : ParseState) : Except GetErr Value :=
  match findLong nm st with
  | none => .error .unknown_option
  | some o =>
    match o.get_value with
    | none => .error .option_not_specified
    | some v => if v.ty = ty then .ok v else .error .bad_any_cast

/-- For the option named `nm`: if it has not been matched (seen-count
still zero) its value slot is still empty.  This is the invariant that
connects "never matched during parsing, no default" to the typed
getter's behaviour. -/
def NeverSetInv (nm : Str) (st : ParseState) : Prop :=
  ∀ o ∈ st.options, o.m_name = nm → o.m_seen = 0 → o.m_value = none

/-! ## General lemmas about the parser loop -/

/-- Once the error code is set, the cluster scan does no further work. -/
theorem clusterScan_ec (ig : Bool) (cs : List Char) (st : ParseState)
    (h : st.ec.isSome) : clusterScan ig cs st = (st, none) := by
  cases cs <;> simp [clusterScan, h]

/-- An exhausted argument vector leaves the state untouched. -/
theorem parseLoop_nil (ig : Bool) (fuel : Nat) (mode : PMode) (st : ParseState) :
    parseLoop ig fuel [] mode st = st := by
  cases fuel <;> rw [parseLoop]

/-- One unfolding of the outer loop when no error is recorded. -/
theorem parseLoop_cons (ig : Bool) (fuel : Nat) (arg : Str) (rest : List Str)
    (mode : PMode) (st : ParseState) (h : st.ec = none) :
    parseLoop ig (fuel + 1) (arg :: rest) mode st =
      parseLoop ig fuel (parseStep ig mode arg rest st).2.2
        (parseStep ig mode arg rest st).1 (parseStep ig mode arg rest st).2.1 := by
  rw [parseLoop]
  simp [h]

/-- In `operands` mode, with no error recorded, the rest of the vector
is appended to the operand list and nothing else changes. -/
theorem parseLoop_operands (ig : Bool) :
    ∀ (fuel : Nat) (args : List Str) (st : ParseState), args.length ≤ fuel → st.ec = none →
      parseLoop ig fuel args .operands st = { st with operands := st.operands ++ args } := by
  intro fuel
  induction fuel with
  | zero =>
    intro args st hlen _
    have hargs : args = [] := List.length_eq_zero.mp (Nat.le_zero.mp hlen)
    subst hargs
    rw [parseLoop_nil]
    simp
  | succ n ih =>
    intro args st hlen hec
    cases args with
    | nil => rw [parseLoop_nil]; simp
    | cons a as =>
      rw [parseLoop_cons ig n a as .operands st hec]
      have hstep : parseStep ig .operands a as st = (.operands, pushOperand a st, as) := rfl
      rw [hstep]
      rw [ih as (pushOperand a st) (by simpa using Nat.le_of_succ_le_succ hlen)
        (by simp [pushOperand, hec])]
      simp [pushOperand]

/-- The bare `--` token switches the state machine to `operands`. -/
theorem parseLoop_ddash (ig : Bool) (fuel : Nat) (rest : List Str) (st : ParseState)
    (h : st.ec = none) :
    parseLoop ig (fuel + 1) (['-', '-'] :: rest) .options st =
      parseLoop ig fuel rest .operands st := by
  rw [parseLoop_cons ig fuel _ rest .options st h]
  have hstep : parseStep ig .options ['-', '-'] rest st = (.operands, st, rest) := rfl
  rw [hstep]

/-- Processing of a long option token resolving to a valued option:
the seen-count is incremented, and the text after the first `=`, when
non-empty, becomes the argument directly with the remaining vector left
alone. -/
theorem parseStep_long_valued_inline (ig : Bool) (body nm a : Str) (rest : List Str)
    (st : ParseState) (o : OptionB)
    (hb : body ≠ [])
    (hsplit : splitEq body = (nm, a))
    (hfind : st.options.find? (keyP (.long nm)) = some o)
    (hflag : o.m_is_flag = false)
    (ha : a ≠ []) :
    parseStep ig .options ('-' :: '-' :: body) rest st =
      (.options, applySet (.long nm) a (incSeen (.long nm) st), rest) := by
  have hne : ('-' :: '-' :: body) ≠ ['-', '-'] := by
    intro hcontra
    exact hb (by injection hcontra with _ h'; injection h')
  have hho : handleOption ig ('-' :: '-' :: body) st =
      (incSeen (.long nm) st, some (.long nm, a)) := by
    rw [handleOption]
    simp only [handleLong, hsplit, hfind, hflag]
    simp
  rw [parseStep]
  simp [hne, hho, ha]

/-- Processing of a long option token resolving to a valued option when
the token carries no (non-empty) inline argument: the next vector slot
is consumed verbatim as the argument, whatever its content. -/
theorem parseStep_long_valued_next (ig : Bool) (body nm : Str) (next : Str)
    (rest' : List Str) (st : ParseState) (o : OptionB)
    (hb : body ≠ [])
    (hsplit : splitEq body = (nm, []))
    (hfind : st.options.find? (keyP (.long nm)) = some o)
    (hflag : o.m_is_flag = false)
    (hnext : next ≠ []) :
    parseStep ig .options ('-' :: '-' :: body) (next :: rest') st =
      (.options, applySet (.long nm) next (incSeen (.long nm) st), rest') := by
  have hne : ('-' :: '-' :: body) ≠ ['-', '-'] := by
    intro hcontra
    exact hb (by injection hcontra with _ h'; injection h')
  have hho : handleOption ig ('-' :: '-' :: body) st =
      (incSeen (.long nm) st, some (.long nm, [])) := by
    rw [handleOption]
    simp only [handleLong, hsplit, hfind, hflag]
    simp
  rw [parseStep]
  simp [hne, hho, hnext]

/-- Processing of a long option token resolving to a flag: the
`option_does_not_accept_argument` error is recorded exactly when the
text after the first `=` is non-empty, and the seen-count is
incremented in either case; no further vector slot is touched. -/
theorem parseStep_long_flag (ig : Bool) (body nm a : Str) (rest : List Str)
    (st : ParseState) (o : OptionB)
    (hb : body ≠ [])
    (hsplit : splitEq body = (nm, a))
    (hfind : st.options.find? (keyP (.long nm)) = some o)
    (hflag : o.m_is_flag = true) :
    parseStep ig .options ('-' :: '-' :: body) rest st =
      (.options,
        incSeen (.long nm)
          (if a ≠ [] then setEc (.config .option_does_not_accept_argument) st else st),
        rest) := by
  have hne : ('-' :: '-' :: body) ≠ ['-', '-'] := by
    intro hcontra
    exact hb (by injection hcontra with _ h'; injection h')
  have hho : handleOption ig ('-' :: '-' :: body) st =
      (incSeen (.long nm)
        (if a ≠ [] then setEc (.config .option_does_not_accept_argument) st else st),
        none) := by
    rw [handleOption]
    simp only [handleLong, hsplit, hfind, hflag]
    simp
  rw [parseStep]
  simp [hne, hho]

/-- With tolerate-unknown false, an unknown character in a short-option
cluster records the `unknown_option` error and the cluster scan stops:
the remaining characters of the cluster are not examined. -/
theorem clusterScan_unknown_aborts (c : Char) (cs : List Char) (st : ParseState)
    (hec : st.ec = none)
    (hfind : st.options.find? (keyP (.short c)) = none) :
    clusterScan false (c :: cs) st = (setEc (.config .unknown_option) st, none) := by
  rw [clusterScan]
  simp only [hec, Option.isSome_none, Bool.false_eq_true, if_false, hfind]
  exact clusterScan_ec false cs _ (by simp [setEc])

/-! ## The never-matched-implies-empty-slot invariant -/

/-- Members of an updated registry are either original members or the
image of the first match. -/
theorem updFirst_mem {p : OptionB → Bool} {f : OptionB → OptionB} :
    ∀ {l : List OptionB} {a : OptionB}, a ∈ updFirst p f l →
      a ∈ l ∨ ∃ b, l.find? p = some b ∧ a = f b := by
  intro l
  induction l with
  | nil => intro a h; simp [updFirst] at h
  | cons o os ih =>
    intro a h
    by_cases hp : p o = true
    · rw [updFirst, if_pos hp] at h
      rcases List.mem_cons.mp h with h | h
      · exact Or.inr ⟨o, by rw [List.find?_cons_of_pos _ hp], h⟩
      · exact Or.inl (List.mem_cons_of_mem _ h)
    · rw [updFirst, if_neg hp] at h
      rcases List.mem_cons.mp h with h | h
      · exact Or.inl (by simp [h])
      · rcases ih h with h' | ⟨b, hb, hab⟩
        · exact Or.inl (List.mem_cons_of_mem _ h')
        · exact Or.inr ⟨b, by rw [List.find?_cons_of_neg _ hp, hb], hab⟩

/-- Lookup after an update that does not disturb the predicate. -/
theorem find?_updFirst {p : OptionB → Bool} {f : OptionB → OptionB}
    (hp : ∀ b, p (f b) = p b) :
    ∀ l : List OptionB, (updFirst p f l).find? p = (l.find? p).map f := by
  intro l
  induction l with
  | nil => simp [updFirst]
  | cons o os ih =>
    by_cases hpo : p o = true
    · rw [updFirst, if_pos hpo, List.find?_cons_of_pos _ (by rw [hp o]; exact hpo),
        List.find?_cons_of_pos _ hpo]
      rfl
    · rw [updFirst, if_neg hpo, List.find?_cons_of_neg _ hpo, List.find?_cons_of_neg _ hpo, ih]

/-- `set_value` never touches the identity and bookkeeping fields of an
option, only its value slot. -/
theorem set_value_fields (o : OptionB) (a : Str) :
    (o.set_value a).1.m_name = o.m_name ∧ (o.set_value a).1.m_short_name = o.m_short_name ∧
      (o.set_value a).1.m_seen = o.m_seen := by
  rw [OptionB.set_value]
  cases hty : o.m_ty with
  | none => simp
  | some ty =>
    cases ty with
    | int => cases hfc : fromChars a <;> simp
    | str => simp

/-- The seen-count increment changes neither names nor short aliases,
so lookup finds the same (incremented) option. -/
theorem find?_incSeen (k : OptKey) (st : ParseState) :
    (incSeen k st).options.find? (keyP k) =
      (st.options.find? (keyP k)).map (fun o => { o with m_seen := o.m_seen + 1 }) := by
  apply find?_updFirst
  intro b
  cases k <;> simp [keyP]

theorem inv_incSeen {nm : Str} {st : ParseState} (k : OptKey)
    (h : NeverSetInv nm st) : NeverSetInv nm (incSeen k st) := by
  intro o ho hname hseen
  rcases updFirst_mem ho with h' | ⟨b, _, hEq⟩
  · exact h o h' hname hseen
  · rw [hEq] at hseen
    simp at hseen

theorem inv_applySet {nm : Str} {st : ParseState} (k : OptKey) (a : Str)
    (hseen : ∀ b, st.options.find? (keyP k) = some b → b.m_seen ≠ 0)
    (h : NeverSetInv nm st) : NeverSetInv nm (applySet k a st) := by
  rw [applySet]
  cases hf : st.options.find? (keyP k) with
  | none => exact h
  | some o =>
    intro o' ho' hname hs
    have ho2 : o' ∈ updFirst (keyP k) (fun _ => (o.set_value a).1) st.options := ho'
    rcases updFirst_mem ho2 with h' | ⟨b, hb, hEq⟩
    · exact h o' h' hname hs
    · rw [hf] at hb
      injection hb with hb
      rw [hEq] at hs
      rw [(set_value_fields o a).2.2] at hs
      subst hb
      exact absurd hs (hseen o hf)

theorem clusterScan_inv (ig : Bool) {nm : Str} :
    ∀ (cs : List Char) (st : ParseState), NeverSetInv nm st →
      NeverSetInv nm (clusterScan ig cs st).1 := by
  intro cs
  induction cs with
  | nil => intro st h; exact h
  | cons c cs ih =>
    intro st h
    rw [clusterScan]
    by_cases he : st.ec.isSome
    · rw [if_pos he]
      exact h
    · rw [if_neg he]
      cases hf : st.options.find? (keyP (.short c)) with
      | none =>
        simp only [hf]
        apply ih
        cases ig
        · exact h
        · exact h
      | some o =>
        simp only [hf]
        by_cases hfl : o.m_is_flag = true
        · rw [if_pos hfl]
          exact ih _ (inv_incSeen _ h)
        · rw [if_neg hfl]
          exact inv_incSeen _ h

/-- A cluster scan that reports a pending valued option has already
incremented that option's seen-count. -/
theorem clusterScan_pending (ig : Bool) :
    ∀ (cs : List Char) (st st' : ParseState) (k : OptKey) (a : Str),
      clusterScan ig cs st = (st', some (k, a)) →
      ∀ b, st'.options.find? (keyP k) = some b → b.m_seen ≠ 0 := by
  intro cs
  induction cs with
  | nil => intro st st' k a h; simp [clusterScan] at h
  | cons c cs ih =>
    intro st st' k a h
    rw [clusterScan] at h
    by_cases he : st.ec.isSome
    · rw [if_pos he] at h
      simp at h
    · rw [if_neg he] at h
      cases hf : st.options.find? (keyP (.short c)) with
      | none =>
        simp only [hf] at h
        exact ih _ _ _ _ h
      | some o =>
        simp only [hf] at h
        by_cases hfl : o.m_is_flag = true
        · rw [if_pos hfl] at h
          exact ih _ _ _ _ h
        · rw [if_neg hfl] at h
          simp only [Prod.mk.injEq, Option.some.injEq] at h
          obtain ⟨h1, h2, _⟩ := h
          subst h2
          intro b hb
          rw [← h1, find?_incSeen, hf] at hb
          injection hb with hb
          rw [← hb]
          simp

theorem handleLong_inv (ig : Bool) (body : Str) (st : ParseState) {nm : Str}
    (h : NeverSetInv nm st) : NeverSetInv nm (handleLong ig body st).1 := by
  unfold handleLong
  cases hf : st.options.find? (keyP (.long (splitEq body).1)) with
  | none =>
    simp only [hf]
    cases ig
    · exact h
    · exact h
  | some o =>
    simp only [hf]
    by_cases hfl : o.m_is_flag = true
    · rw [if_pos hfl]
      refine inv_incSeen _ ?_
      by_cases ha : (splitEq body).2 ≠ []
      · rw [if_pos ha]
        exact h
      · rw [if_neg ha]
        exact h
    · rw [if_neg hfl]
      exact inv_incSeen _ h

/-- A long-option step that reports a pending valued option has already
incremented that option's seen-count. -/
theorem handleLong_pending (ig : Bool) (body : Str) (st st' : ParseState)
    (k : OptKey) (a : Str)
    (h : handleLong ig body st = (st', some (k, a))) :
    ∀ b, st'.options.find? (keyP k) = some b → b.m_seen ≠ 0 := by
  unfold handleLong at h
  cases hf : st.options.find? (keyP (.long (splitEq body).1)) with
  | none =>
    simp only [hf] at h
    cases ig <;> simp at h
  | some o =>
    simp only [hf] at h
    by_cases hfl : o.m_is_flag = true
    · rw [if_pos hfl] at h
      simp at h
    · rw [if_neg hfl] at h
      simp only [Prod.mk.injEq, Option.some.injEq] at h
      obtain ⟨h1, h2, _⟩ := h
      subst h2
      intro b hb
      rw [← h1, find?_incSeen, hf] at hb
      injection hb with hb
      rw [← hb]
      simp

theorem handleOption_inv (ig : Bool) (arg : Str) (st : ParseState) {nm : Str}
    (h : NeverSetInv nm st) : NeverSetInv nm (handleOption ig arg st).1 := by
  unfold handleOption
  split
  · exact handleLong_inv ig _ st h
  · exact clusterScan_inv ig _ st h
  · exact h

/-- Processing that leaves a pending valued option has already
incremented that option's seen-count. -/
theorem handleOption_pending (ig : Bool) (arg : Str) (st st' : ParseState)
    (k : OptKey) (a : Str)
    (h : handleOption ig arg st = (st', some (k, a))) :
    ∀ b, st'.options.find? (keyP k) = some b → b.m_seen ≠ 0 := by
  unfold handleOption at h
  split at h
  · exact handleLong_pending ig _ st st' k a h
  · exact clusterScan_pending ig _ st st' k a h
  · simp at h

theorem parseStep_inv (ig : Bool) (mode : PMode) (arg : Str) (rest : List Str)
    (st : ParseState) {nm : Str} (h : NeverSetInv nm st) :
    NeverSetInv nm (parseStep ig mode arg rest st).2.1 := by
  unfold parseStep
  split
  · exact h
  · split
    · exact h
    · split
      · exact h
      · split
        · rename_i st' heq
          have h2 := handleOption_inv ig arg st h
          rw [heq] at h2
          exact h2
        · rename_i st' k a heq
          have hst' : NeverSetInv nm st' := by
            have h2 := handleOption_inv ig arg st h
            rw [heq] at h2
            exact h2
          have hpend := handleOption_pending ig arg st st' k a heq
          split
          · split
            · exact hst'
            · split
              · exact hst'
              · exact inv_applySet _ _ hpend hst'
          · exact inv_applySet _ _ hpend hst'

/-- The invariant is preserved by the whole parse loop: an option whose
seen-count is still zero after parsing has the value slot it started
with (empty, when it had no default). -/
theorem parseLoop_inv (ig : Bool) {nm : Str} :
    ∀ (fuel : Nat) (args : List Str) (mode : PMode) (st : ParseState),
      NeverSetInv nm st → NeverSetInv nm (parseLoop ig fuel args mode st) := by
  intro fuel
  induction fuel with
  | zero => intro args mode st h; rw [parseLoop]; exact h
  | succ n ih =>
    intro args mode st h
    cases args with
    | nil => rw [parseLoop_nil]; exact h
    | cons arg rest =>
      rw [parseLoop]
      by_cases he : st.ec.isSome
      · rw [if_pos he]
        exact h
      · rw [if_neg he]
        exact ih _ _ _ (parseStep_inv ig mode arg rest st h)

/-! ## Argument resolution consumes the next slot verbatim -/

/-- Whenever token processing leaves a valued option pending with no
inline argument, argument resolution consumes the next vector slot
verbatim as the option argument — no matter what characters that slot
contains — and the loop resumes after it. -/
theorem parseStep_pending_next (ig : Bool) (arg : Str) (next : Str) (rest' : List Str)
    (st st' : ParseState) (k : OptKey)
    (hhead : arg.head? = some '-') (hne : arg ≠ ['-', '-'])
    (hho : handleOption ig arg st = (st', some (k, [])))
    (hnext : next ≠ []) :
    parseStep ig .options arg (next :: rest') st =
      (.options, applySet k next st', rest') := by
  rw [parseStep]
  simp [hhead, hne, hho, hnext]

/-! ## Decimal conversion round trip -/

theorem isDig_cases {c : Char} (h : isDig c = true) :
    c = '0' ∨ c = '1' ∨ c = '2' ∨ c = '3' ∨ c = '4' ∨
    c = '5' ∨ c = '6' ∨ c = '7' ∨ c = '8' ∨ c = '9' := by
  simpa [isDig, or_assoc] using h

theorem digitChar_dval {c : Char} (h : isDig c = true) : digitChar (dval c) = c := by
  rcases isDig_cases h with rfl | rfl | rfl | rfl | rfl | rfl | rfl | rfl | rfl | rfl <;> decide

theorem dval_lt_ten {c : Char} (h : isDig c = true) : dval c < 10 := by
  rcases isDig_cases h with rfl | rfl | rfl | rfl | rfl | rfl | rfl | rfl | rfl | rfl <;> decide

theorem dval_pos {c : Char} (h : isDig c = true) (h0 : c ≠ '0') : 1 ≤ dval c := by
  rcases isDig_cases h with rfl | rfl | rfl | rfl | rfl | rfl | rfl | rfl | rfl | rfl
  · exact absurd rfl h0
  all_goals decide

theorem isDig_digitChar {d : Nat} (h : d < 10) : isDig (digitChar d) = true := by
  interval_cases d <;> decide

theorem dval_digitChar {d : Nat} (h : d < 10) : dval (digitChar d) = d := by
  interval_cases d <;> decide

theorem digitChar_ne_zero {d : Nat} (h1 : 1 ≤ d) (h2 : d < 10) : digitChar d ≠ '0' := by
  interval_cases d <;> decide

theorem isDig_ne_dash {c : Char} (h : isDig c = true) : c ≠ '-' := by
  rcases isDig_cases h with rfl | rfl | rfl | rfl | rfl | rfl | rfl | rfl | rfl | rfl <;> decide

theorem toDigitsAux_congr : ∀ (f1 f2 n : Nat), n < f1 → n < f2 →
    toDigitsAux f1 n = toDigitsAux f2 n := by
  intro f1
  induction f1 with
  | zero => intro f2 n h1 _; omega
  | succ f ih =>
    intro f2 n h1 h2
    cases f2 with
    | zero => omega
    | succ g =>
      rw [toDigitsAux, toDigitsAux]
      by_cases h10 : n < 10
      · rw [if_pos h10, if_pos h10]
      · rw [if_neg h10, if_neg h10]
        have hlt : n / 10 < n := Nat.div_lt_self (by omega) (by omega)
        rw [ih g (n / 10) (by omega) (by omega)]

/-- The characteristic unfolding of `toDigitsN`, with the fuel hidden. -/
theorem toDigitsN_eq (n : Nat) :
    toDigitsN n =
      if n < 10 then [digitChar n] else toDigitsN (n / 10) ++ [digitChar (n % 10)] := by
  rw [toDigitsN, toDigitsAux]
  by_cases h10 : n < 10
  · rw [if_pos h10, if_pos h10]
  · rw [if_neg h10, if_neg h10]
    have hlt : n / 10 < n := Nat.div_lt_self (by omega) (by omega)
    rw [toDigitsAux_congr n (n / 10 + 1) (n / 10) (by omega) (by omega)]
    rfl

theorem toDigitsN_ne_nil (n : Nat) : toDigitsN n ≠ [] := by
  rw [toDigitsN_eq]
  by_cases h10 : n < 10
  · rw [if_pos h10]; simp
  · rw [if_neg h10]; simp

theorem parseDigitsAux_append (c : Char) :
    ∀ (xs : Str) (acc : Nat), parseDigitsAux acc (xs ++ [c]) =
      (parseDigitsAux acc xs).bind
        (fun m => if isDig c then some (10 * m + dval c) else none) := by
  intro xs
  induction xs with
  | nil =>
    intro acc
    simp [parseDigitsAux]
  | cons x xs ih =>
    intro acc
    rw [List.cons_append, parseDigitsAux, parseDigitsAux]
    by_cases hx : isDig x = true
    · rw [if_pos hx, if_pos hx, ih]
    · rw [if_neg hx, if_neg hx]
      simp

theorem parseDigitsAux_le : ∀ (xs : Str) (acc n : Nat),
    parseDigitsAux acc xs = some n → acc ≤ n := by
  intro xs
  induction xs with
  | nil =>
    intro acc n h
    rw [parseDigitsAux] at h
    injection h with h
    omega
  | cons x xs ih =>
    intro acc n h
    rw [parseDigitsAux] at h
    by_cases hx : isDig x = true
    · rw [if_pos hx] at h
      have := ih (10 * acc + dval x) n h
      omega
    · rw [if_neg hx] at h
      exact absurd h (by simp)

/-- Parsing the rendered digits of a natural number recovers it. -/
theorem parseDigits_toDigitsN (n : Nat) : parseDigits (toDigitsN n) = some n := by
  induction n using Nat.strong_induction_on with
  | _ n ih =>
    rw [toDigitsN_eq]
    by_cases h10 : n < 10
    · rw [if_pos h10, parseDigits, if_neg (by simp), parseDigitsAux,
        if_pos (isDig_digitChar h10), parseDigitsAux, dval_digitChar h10]
      norm_num
    · rw [if_neg h10, parseDigits,
        if_neg (by simp [toDigitsN_ne_nil]), parseDigitsAux_append]
      have hx : parseDigitsAux 0 (toDigitsN (n / 10)) = some (n / 10) := by
        have h := ih (n / 10) (Nat.div_lt_self (by omega) (by omega))
        rw [parseDigits, if_neg (by simp [toDigitsN_ne_nil])] at h
        exact h
      rw [hx]
      have hm : n % 10 < 10 := Nat.mod_lt n (by omega)
      simp only [Option.bind]
      rw [if_pos (isDig_digitChar hm), dval_digitChar hm]
      congr 1
      omega

theorem toDigitsN_head_ne_zero : ∀ n : Nat, 1 ≤ n →
    ∀ (x : Char) (xs : Str), toDigitsN n = x :: xs → x ≠ '0' := by
  intro n
  induction n using Nat.strong_induction_on with
  | _ n ih =>
    intro hn x xs hx
    rw [toDigitsN_eq] at hx
    by_cases h10 : n < 10
    · rw [if_pos h10] at hx
      injection hx with h1 _
      rw [← h1]
      exact digitChar_ne_zero hn h10
    · rw [if_neg h10] at hx
      obtain ⟨y, ys, hy⟩ : ∃ y ys, toDigitsN (n / 10) = y :: ys := by
        cases hh : toDigitsN (n / 10) with
        | nil => exact absurd hh (toDigitsN_ne_nil _)
        | cons y ys => exact ⟨y, ys, rfl⟩
      rw [hy, List.cons_append] at hx
      injection hx with h1 _
      rw [← h1]
      exact ih (n / 10) (Nat.div_lt_self (by omega) (by omega)) (by omega) y ys hy

/-- The digits rendered for a natural number are canonical. -/
theorem isCanonicalNat_toDigitsN (n : Nat) : isCanonicalNat (toDigitsN n) = true := by
  induction n using Nat.strong_induction_on with
  | _ n ih =>
    rw [toDigitsN_eq]
    by_cases h10 : n < 10
    · rw [if_pos h10]
      simp [isCanonicalNat, isDig_digitChar h10]
    · rw [if_neg h10]
      obtain ⟨y, ys, hy⟩ : ∃ y ys, toDigitsN (n / 10) = y :: ys := by
        cases hh : toDigitsN (n / 10) with
        | nil => exact absurd hh (toDigitsN_ne_nil _)
        | cons y ys => exact ⟨y, ys, rfl⟩
      have hcan := ih (n / 10) (Nat.div_lt_self (by omega) (by omega))
      rw [hy] at hcan
      have hy0 : y ≠ '0' :=
        toDigitsN_head_ne_zero (n / 10) (by omega) y ys hy
      have hm : n % 10 < 10 := Nat.mod_lt n (by omega)
      rw [hy, List.cons_append, isCanonicalNat]
      rw [isCanonicalNat] at hcan
      simp only [Bool.and_eq_true, Bool.or_eq_true, bne_iff_ne, decide_eq_true_eq] at hcan
      obtain ⟨⟨hdy, hally⟩, _⟩ := hcan
      simp [List.all_append, hdy, hally, isDig_digitChar hm, hy0]

/-- Rendering is injective into canonical strings: a canonical digit
string that parses to `n` is exactly the rendering of `n`. -/
theorem toDigitsN_of_parseDigits : ∀ (s : Str) (n : Nat), isCanonicalNat s = true →
    parseDigits s = some n → toDigitsN n = s := by
  intro s
  induction s using List.reverseRecOn with
  | nil => intro n hc; simp [isCanonicalNat] at hc
  | append_singleton xs c ih =>
    intro n hc hp
    cases xs with
    | nil =>
      simp only [List.nil_append] at hc hp ⊢
      have hd : isDig c = true := by
        rw [isCanonicalNat] at hc
        simpa using hc
      rw [parseDigits, if_neg (by simp), parseDigitsAux, if_pos hd, parseDigitsAux] at hp
      injection hp with hp
      rw [toDigitsN_eq, if_pos (by have := dval_lt_ten hd; omega)]
      rw [show n = dval c by omega, digitChar_dval hd]
    | cons x xs' =>
      rw [List.cons_append, isCanonicalNat] at hc
      simp only [Bool.and_eq_true, Bool.or_eq_true, bne_iff_ne, decide_eq_true_eq,
        List.all_append, List.all_cons, List.all_nil, Bool.and_true] at hc
      obtain ⟨⟨hdx, hall, hdc⟩, hor⟩ := hc
      have hx0 : x ≠ '0' := by
        rcases hor with hor | hor
        · exact absurd hor (by simp)
        · exact hor
      have hcxs : isCanonicalNat (x :: xs') = true := by
        rw [isCanonicalNat]
        simp [hdx, hall, hx0]
      rw [parseDigits, if_neg (by simp), parseDigitsAux_append] at hp
      cases hm : parseDigitsAux 0 (x :: xs') with
      | none => rw [hm] at hp; simp at hp
      | some m =>
        rw [hm] at hp
        simp only [Option.bind] at hp
        rw [if_pos hdc] at hp
        injection hp with hp
        have hm' : parseDigits (x :: xs') = some m := by
          rw [parseDigits, if_neg (by simp)]
          exact hm
        have hm1 : 1 ≤ m := by
          have h1 : parseDigitsAux (10 * 0 + dval x) xs' = some m := by
            rw [parseDigitsAux, if_pos hdx] at hm
            exact hm
          have h2 := parseDigitsAux_le xs' (10 * 0 + dval x) m h1
          have h3 := dval_pos hdx hx0
          omega
        have hd10 := dval_lt_ten hdc
        have hge : 10 ≤ n := by omega
        rw [toDigitsN_eq, if_neg (by omega)]
        have hdiv : n / 10 = m := by omega
        have hmod : n % 10 = dval c := by omega
        rw [hdiv, hmod, digitChar_dval hdc, ih m hcxs hm']

/-- The rendered form of an integer parses back to it. -/
theorem fromChars_intToChars (n : Int) : fromChars (intToChars n) = some n := by
  cases n with
  | ofNat m =>
    rw [intToChars]
    obtain ⟨x, xs, hx⟩ : ∃ x xs, toDigitsN m = x :: xs := by
      cases hh : toDigitsN m with
      | nil => exact absurd hh (toDigitsN_ne_nil _)
      | cons x xs => exact ⟨x, xs, rfl⟩
    have hd : isDig x = true := by
      have h := isCanonicalNat_toDigitsN m
      rw [hx, isCanonicalNat] at h
      simp only [Bool.and_eq_true] at h
      exact h.1.1
    rw [hx, fromChars, if_neg (isDig_ne_dash hd), ← hx, parseDigits_toDigitsN]
    rfl
  | negSucc m =>
    rw [intToChars, fromChars, if_pos rfl, parseDigits_toDigitsN]
    simp [Int.negSucc_eq]

/-- The rendered form of an integer is canonical. -/
theorem isCanonicalInt_intToChars (n : Int) : isCanonicalInt (intToChars n) = true := by
  cases n with
  | ofNat m =>
    rw [intToChars]
    obtain ⟨x, xs, hx⟩ : ∃ x xs, toDigitsN m = x :: xs := by
      cases hh : toDigitsN m with
      | nil => exact absurd hh (toDigitsN_ne_nil _)
      | cons x xs => exact ⟨x, xs, rfl⟩
    have hd : isDig x = true := by
      have h := isCanonicalNat_toDigitsN m
      rw [hx, isCanonicalNat] at h
      simp only [Bool.and_eq_true] at h
      exact h.1.1
    rw [hx, isCanonicalInt, if_neg (isDig_ne_dash hd), ← hx]
    exact isCanonicalNat_toDigitsN m
  | negSucc m =>
    rw [intToChars, isCanonicalInt, if_pos rfl]
    have h1 := isCanonicalNat_toDigitsN (m + 1)
    have h2 : toDigitsN (m + 1) ≠ ['0'] := by
      intro hcontra
      have h3 := parseDigits_toDigitsN (m + 1)
      rw [hcontra] at h3
      have h4 : parseDigits ['0'] = some 0 := by decide
      rw [h4] at h3
      injection h3 with h3
      omega
    simp [h1, h2]

/-- A canonical token is reproduced exactly by the round trip. -/
theorem intToChars_of_fromChars (s : Str) (n : Int) (hp : fromChars s = some n)
    (hc : isCanonicalInt s = true) : intToChars n = s := by
  cases s with
  | nil => simp [fromChars] at hp
  | cons c rest =>
    by_cases hcm : c = '-'
    · subst hcm
      rw [fromChars, if_pos rfl] at hp
      rw [isCanonicalInt, if_pos rfl] at hc
      simp only [Bool.and_eq_true, bne_iff_ne] at hc
      obtain ⟨hc1, hc2⟩ := hc
      cases hm : parseDigits rest with
      | none => rw [hm] at hp; simp at hp
      | some m =>
        rw [hm] at hp
        simp only [Option.map] at hp
        injection hp with hp
        have hm1 : 1 ≤ m := by
          by_contra h0
          have hz : m = 0 := by omega
          rw [hz] at hm
          have := toDigitsN_of_parseDigits rest 0 hc1 hm
          have h0' : toDigitsN 0 = ['0'] := by decide
          rw [h0'] at this
          exact hc2 this.symm
        obtain ⟨k, hk⟩ : ∃ k, m = k + 1 := ⟨m - 1, by omega⟩
        have hn : n = Int.negSucc k := by
          rw [← hp, hk]
          rw [Int.negSucc_eq]
          push_cast
          ring
        rw [hn, intToChars, ← hk, toDigitsN_of_parseDigits rest m hc1 hm]
    · rw [fromChars, if_neg hcm] at hp
      rw [isCanonicalInt, if_neg hcm] at hc
      cases hm : parseDigits (c :: rest) with
      | none => rw [hm] at hp; simp at hp
      | some m =>
        rw [hm] at hp
        simp only [Option.map] at hp
        injection hp with hp
        rw [← hp]
        exact toDigitsN_of_parseDigits (c :: rest) m hc hm

/-! ## Claims -/

/-- Claim C1 (code bug): the claim says that when `set_value` is called
with a token whose conversion fails, the error code is set and the value
slot is exactly what it was before the call (absent when no default was
declared).  Evaluating the embedded code at the failing input: an `int`
option `port` with no default starts with an absent slot; `set_value`
on the malformed token `abc` reports the conversion error but
unconditionally assigns the traits result (`m_value =
traits_type::set_value(argument, ec)`, an indeterminate value in C++),
so the slot is engaged afterwards — not absent.  The same is visible
through a whole parse of `prog --port abc`. -/
theorem C1_conversion_failure_overwrites_slot :
    (make_option .int ("port".toList) []).m_value = none ∧
    ((make_option .int ("port".toList) []).set_value ("abc".toList)).2 = true ∧
    (((make_option .int ("port".toList) []).set_value ("abc".toList)).1.m_value).isSome = true ∧
    (cfgParse ["prog".toList, "--port".toList, "abc".toList]
        [make_option .int ("port".toList) []] false).ec = some .conv ∧
    ((cfgParse ["prog".toList, "--port".toList, "abc".toList]
        [make_option .int ("port".toList) []] false).options.map
          (fun o => o.m_value.isSome)) = [true] := by
  decide

/-- Claim C2 (counterexample): parsing `prog -za` with tolerate-unknown
false against a registry holding the flag `a` leaves `count("a") = 0` —
the claimed continued scan would have made it 1.  The unknown `z` sets
the error and the `while (*arg != 0 and not ec)` condition stops the
cluster scan before `a` is examined. -/
theorem C2_counterexample :
    (cfgParse ["prog".toList, "-za".toList] [make_option_flag ("a".toList) []] false).ec =
      some (.config .unknown_option) ∧
    config_count ("a".toList)
      (cfgParse ["prog".toList, "-za".toList] [make_option_flag ("a".toList) []] false) = 0 := by
  decide

/-- Claim C2 (amended): with tolerate-unknown false, an unknown
character in a short-option cluster records the `unknown_option` error
and the cluster scan stops immediately: the remaining characters of the
cluster are not examined, so known flags after the unknown character do
NOT get their seen-counts incremented (the state is unchanged except
for the error code). -/
theorem C2_amended_cluster_abort (c : Char) (cs : List Char) (st : ParseState)
    (hec : st.ec = none)
    (hfind : st.options.find? (keyP (.short c)) = none) :
    clusterScan false (c :: cs) st = (setEc (.config .unknown_option) st, none) :=
  clusterScan_unknown_aborts c cs st hec hfind

theorem C2_amended_cluster_abort_w :
    clusterScan false ['z', 'a']
        { options := [make_option_flag ("a".toList) []], operands := [], ec := none } =
      (setEc (.config .unknown_option)
        { options := [make_option_flag ("a".toList) []], operands := [], ec := none }, none) :=
  C2_amended_cluster_abort 'z' ['a']
    { options := [make_option_flag ("a".toList) []], operands := [], ec := none }
    rfl (by decide)

/-- Claim C3 (counterexample): the claim says the text after the first
`=` becomes the argument directly and the next slot is consumed only
when no inline argument is present.  But the code tests emptiness of
the text after `=`, not the presence of `=`: parsing
`prog --port= 8080` against a string option `port` consumes `8080` from
the next slot as the argument (so `port` ends up holding `8080`, no
operand and no error), although an inline argument (the empty text
after `=`) was present. -/
theorem C3_counterexample :
    config_get .str ("port".toList)
        (cfgParse ["prog".toList, "--port=".toList, "8080".toList]
          [make_option .str ("port".toList) []] false) = .ok (.str ("8080".toList)) ∧
    (cfgParse ["prog".toList, "--port=".toList, "8080".toList]
        [make_option .str ("port".toList) []] false).operands = [] ∧
    (cfgParse ["prog".toList, "--port=".toList, "8080".toList]
        [make_option .str ("port".toList) []] false).ec = none := by
  decide

/-- Claim C3 (amended): for a long option token resolving to a valued
option, the text after the first `=` becomes the argument directly —
and the next vector slot is left alone — exactly when that text is
non-empty; when the token has no `=` or the text after it is empty, the
argument is taken from the next vector slot instead. -/
theorem C3_amended_inline_argument (ig : Bool) (body nm a : Str) (rest : List Str)
    (st : ParseState) (o : OptionB)
    (hb : body ≠ []) (hsplit : splitEq body = (nm, a))
    (hfind : st.options.find? (keyP (.long nm)) = some o)
    (hflag : o.m_is_flag = false) :
    (a ≠ [] →
      parseStep ig .options ('-' :: '-' :: body) rest st =
        (.options, applySet (.long nm) a (incSeen (.long nm) st), rest)) ∧
    (∀ (next : Str) (rest' : List Str), a = [] → next ≠ [] →
      parseStep ig .options ('-' :: '-' :: body) (next :: rest') st =
        (.options, applySet (.long nm) next (incSeen (.long nm) st), rest')) := by
  constructor
  · intro ha
    exact parseStep_long_valued_inline ig body nm a rest st o hb hsplit hfind hflag ha
  · intro next rest' ha hnext
    subst ha
    exact parseStep_long_valued_next ig body nm next rest' st o hb hsplit hfind hflag hnext

theorem C3_amended_inline_argument_w :
    parseStep false .options ('-' :: '-' :: ("port=8080".toList)) []
        { options := [make_option .int ("port".toList) []], operands := [], ec := none } =
      (.options,
        applySet (.long ("port".toList)) ("8080".toList)
          (incSeen (.long ("port".toList))
            { options := [make_option .int ("port".toList) []], operands := [], ec := none }),
        []) :=
  (C3_amended_inline_argument false ("port=8080".toList) ("port".toList) ("8080".toList) []
      { options := [make_option .int ("port".toList) []], operands := [], ec := none }
      (make_option .int ("port".toList) [])
      (by decide) (by decide) (by decide) (by decide)).1 (by decide)

/-- Claim C4 (counterexample): the claim says any `=` in a long token
naming a flag raises `option_does_not_accept_argument`.  But
`prog --verbose=` (an `=` with empty text after it) parses without any
error and increments the flag's seen-count, because the code checks
`opt_arg.empty()`, not the presence of `=`. -/
theorem C4_counterexample :
    (cfgParse ["prog".toList, "--verbose=".toList]
        [make_option_flag ("verbose".toList) []] false).ec = none ∧
    config_count ("verbose".toList)
      (cfgParse ["prog".toList, "--verbose=".toList]
        [make_option_flag ("verbose".toList) []] false) = 1 := by
  decide

/-- Claim C4 (amended): for a long option token resolving to a flag,
the `option_does_not_accept_argument` error is raised exactly when the
text after the first `=` is non-empty (`--flag=` is accepted silently);
the seen-count is incremented in either case. -/
theorem C4_amended_flag_inline (ig : Bool) (body nm a : Str) (rest : List Str)
    (st : ParseState) (o : OptionB)
    (hb : body ≠ []) (hsplit : splitEq body = (nm, a))
    (hfind : st.options.find? (keyP (.long nm)) = some o)
    (hflag : o.m_is_flag = true) :
    parseStep ig .options ('-' :: '-' :: body) rest st =
      (.options,
        incSeen (.long nm)
          (if a ≠ [] then setEc (.config .option_does_not_accept_argument) st else st),
        rest) :=
  parseStep_long_flag ig body nm a rest st o hb hsplit hfind hflag

theorem C4_amended_flag_inline_w :
    parseStep false .options ('-' :: '-' :: ("verbose=1".toList)) []
        { options := [make_option_flag ("verbose".toList) []], operands := [], ec := none } =
      (.options,
        incSeen (.long ("verbose".toList))
          (if ("1".toList : Str) ≠ [] then
            setEc (.config .option_does_not_accept_argument)
              { options := [make_option_flag ("verbose".toList) []], operands := [], ec := none }
           else
            { options := [make_option_flag ("verbose".toList) []], operands := [], ec := none }),
        []) :=
  C4_amended_flag_inline false ("verbose=1".toList) ("verbose".toList) ("1".toList) []
    { options := [make_option_flag ("verbose".toList) []], operands := [], ec := none }
    (make_option_flag ("verbose".toList) [])
    (by decide) (by decide) (by decide) (by decide)

/-- Claim C5: the bare `--` token switches the machine to the
`operands` state; from then on every remaining token is appended to the
operands in order and the registry (in particular every seen-count) is
never touched again — no option is matched after the marker.  In
particular `prog -- --flag` against the flag `flag` yields operands
`["--flag"]` and `count("flag") = 0`. -/
theorem C5_end_of_options (ig : Bool) :
    (∀ (fuel : Nat) (rest : List Str) (st : ParseState), st.ec = none →
      parseLoop ig (fuel + 1) (['-', '-'] :: rest) .options st =
        parseLoop ig fuel rest .operands st) ∧
    (∀ (fuel : Nat) (args : List Str) (st : ParseState), args.length ≤ fuel → st.ec = none →
      parseLoop ig fuel args .operands st = { st with operands := st.operands ++ args }) ∧
    ((cfgParse ["prog".toList, "--".toList, "--flag".toList]
        [make_option_flag ("flag".toList) []] false).operands = ["--flag".toList] ∧
      config_count ("flag".toList)
        (cfgParse ["prog".toList, "--".toList, "--flag".toList]
          [make_option_flag ("flag".toList) []] false) = 0 ∧
      (cfgParse ["prog".toList, "--".toList, "--flag".toList]
        [make_option_flag ("flag".toList) []] false).ec = none) := by
  refine ⟨?_, ?_, ?_⟩
  · intro fuel rest st h
    exact parseLoop_ddash ig fuel rest st h
  · intro fuel args st h1 h2
    exact parseLoop_operands ig fuel args st h1 h2
  · decide

theorem C5_end_of_options_w :
    parseLoop false 2 (['-', '-'] :: [("--flag".toList : Str)]) .options
        { options := [make_option_flag ("flag".toList) []], operands := [], ec := none } =
      parseLoop false 1 [("--flag".toList : Str)] .operands
        { options := [make_option_flag ("flag".toList) []], operands := [], ec := none } :=
  (C5_end_of_options false).1 1 [("--flag".toList : Str)]
    { options := [make_option_flag ("flag".toList) []], operands := [], ec := none } rfl

/-- Claim C6: an option present in the registry that was never matched
during parsing (its seen-count is still zero) and that was declared
without a default has an empty value slot, so the typed getter raises
`option_not_specified`. -/
theorem C6_unset_option_not_specified (ig : Bool) (argv : List Str) (opts : List OptionB)
    (ty : ValTy) (nm : Str) (o : OptionB)
    (hnodef : ∀ o' ∈ opts, o'.m_name = nm → o'.m_has_default = false ∧ o'.m_value = none)
    (hfind : findLong nm (cfgParse argv opts ig) = some o)
    (hseen : o.m_seen = 0) :
    config_get ty nm (cfgParse argv opts ig) = .error .option_not_specified := by
  have hinv : NeverSetInv nm (cfgParse argv opts ig) := by
    unfold cfgParse
    apply parseLoop_inv
    intro o' ho' hn _
    exact (hnodef o' ho' hn).2
  have hfind' : (cfgParse argv opts ig).options.find? (keyP (.long nm)) = some o := hfind
  have hmem : o ∈ (cfgParse argv opts ig).options := List.mem_of_find?_eq_some hfind'
  have hp := List.find?_some hfind'
  have hname : o.m_name = nm := by simpa [keyP] using hp
  have hval : o.m_value = none := hinv o hmem hname hseen
  have hgv : o.get_value = none := by
    unfold OptionB.get_value
    cases o.m_ty <;> simp [hval]
  unfold config_get
  rw [hfind]
  simp only [hgv]

theorem C6_unset_option_not_specified_w :
    config_get .int ("port".toList)
        (cfgParse ["prog".toList] [make_option .int ("port".toList) []] false) =
      .error .option_not_specified :=
  C6_unset_option_not_specified false ["prog".toList] [make_option .int ("port".toList) []]
    .int ("port".toList) (make_option .int ("port".toList) [])
    (by decide) (by decide) (by decide)

/-- Claim C7: for every token the modelled `from_chars` accepts, the
traits `set_value` succeeds with the parsed value, and `to_string`
renders it in canonical decimal form: the rendering is canonical,
parses back to the same value (making it the canonical form of the
token), and equals the token itself whenever the token had no redundant
leading zeros or sign. -/
theorem C7_numeric_round_trip (s : Str) (n : Int) (h : fromChars s = some n) :
    option_traits_int_set_value s = (n, false) ∧
    isCanonicalInt (option_traits_int_to_string n) = true ∧
    fromChars (option_traits_int_to_string n) = some n ∧
    (isCanonicalInt s = true → option_traits_int_to_string n = s) := by
  refine ⟨?_, isCanonicalInt_intToChars n, fromChars_intToChars n,
    fun hc => intToChars_of_fromChars s n h hc⟩
  unfold option_traits_int_set_value
  rw [h]

theorem C7_numeric_round_trip_w :
    fromChars ("-120".toList) = some (-120) ∧
    (option_traits_int_set_value ("-120".toList) = (-120, false) ∧
      isCanonicalInt (option_traits_int_to_string (-120)) = true ∧
      fromChars (option_traits_int_to_string (-120)) = some (-120) ∧
      (isCanonicalInt ("-120".toList) = true →
        option_traits_int_to_string (-120) = "-120".toList)) :=
  ⟨by decide, C7_numeric_round_trip ("-120".toList) (-120) (by decide)⟩

/-- Claim C8 (code bug): the claim (and the spec) say `get_default_text`
returns the empty string when no default was declared.  The base (flag)
entity does return the empty string, but the valued override
(`option<T>::get_default_value`) dereferences `*m_value`
unconditionally: on a valued option with no default and no assigned
value the slot is absent and the dereference is undefined behaviour
(modelled as `none`), not the empty string. -/
theorem C8_get_default_reads_absent_slot :
    (make_option .int ("port".toList) []).m_has_default = false ∧
    (make_option .int ("port".toList) []).m_value = none ∧
    (make_option .int ("port".toList) []).get_default_value = none ∧
    (make_option_flag ("v".toList) []).get_default_value = some [] := by
  decide

/-- Claim C9: whenever a valued option's argument is taken from the
next vector slot (no inline or cluster-remainder argument), that slot
is consumed verbatim — there is no hypothesis whatsoever on its
characters, so tokens beginning with `-` or `--` are consumed as the
argument too and are never matched as options.  Concretely,
`prog --port --other` against a string option `port` and a flag `other`
assigns `port := "--other"`, leaves `count("other") = 0`, no error and
no operands. -/
theorem C9_next_slot_verbatim :
    (∀ (ig : Bool) (arg next : Str) (rest' : List Str) (st st' : ParseState) (k : OptKey),
      arg.head? = some '-' → arg ≠ ['-', '-'] →
      handleOption ig arg st = (st', some (k, [])) → next ≠ [] →
      parseStep ig .options arg (next :: rest') st =
        (.options, applySet k next st', rest')) ∧
    (config_get .str ("port".toList)
        (cfgParse ["prog".toList, "--port".toList, "--other".toList]
          [make_option .str ("port".toList) [], make_option_flag ("other".toList) []] false) =
      .ok (.str ("--other".toList)) ∧
      config_count ("other".toList)
        (cfgParse ["prog".toList, "--port".toList, "--other".toList]
          [make_option .str ("port".toList) [], make_option_flag ("other".toList) []] false) = 0 ∧
      (cfgParse ["prog".toList, "--port".toList, "--other".toList]
        [make_option .str ("port".toList) [], make_option_flag ("other".toList) []] false).ec =
        none ∧
      (cfgParse ["prog".toList, "--port".toList, "--other".toList]
        [make_option .str ("port".toList) [], make_option_flag ("other".toList) []] false).operands =
        []) := by
  constructor
  · intro ig arg next rest' st st' k h1 h2 h3 h4
    exact parseStep_pending_next ig arg next rest' st st' k h1 h2 h3 h4
  · decide

theorem C9_next_slot_verbatim_w :
    parseStep false .options ("--port".toList) (("--other".toList : Str) :: [])
        { options := [make_option .str ("port".toList) [],
            make_option_flag ("other".toList) []], operands := [], ec := none } =
      (.options,
        applySet (.long ("port".toList)) ("--other".toList)
          (incSeen (.long ("port".toList))
            { options := [make_option .str ("port".toList) [],
                make_option_flag ("other".toList) []], operands := [], ec := none }),
        []) :=
  C9_next_slot_verbatim.1 false ("--port".toList) ("--other".toList) []
    { options := [make_option .str ("port".toList) [],
        make_option_flag ("other".toList) []], operands := [], ec := none }
    (incSeen (.long ("port".toList))
      { options := [make_option .str ("port".toList) [],
          make_option_flag ("other".toList) []], operands := [], ec := none })
    (.long ("port".toList)) (by decide) (by decide) (by decide) (by decide)

/-- Claim C10: the typed getter on a name that is not present in the
registry at all raises `unknown_option` — not `option_not_specified` —
distinguishing an undeclared name from a declared-but-unset option. -/
theorem C10_get_unknown_option (ty : ValTy) (nm : Str) (st : ParseState)
    (h : findLong nm st = none) :
    config_get ty nm st = .error .unknown_option := by
  unfold config_get
  rw [h]

theorem C10_get_unknown_option_w :
    config_get .int ("port".toList) { options := [], operands := [], ec := none } =
      .error .unknown_option :=
  C10_get_unknown_option .int ("port".toList)
    { options := [], operands := [], ec := none } (by decide)

end Cfg
